import Mathlib

/-!
Shallow embedding of the RetailIQ analytical code in
src/frontend/src/utils/csvDataProcessor.js.

Numbers are modelled as rationals (the JavaScript arithmetic on the small
integer counts and their quotients is exact in every expression the code
evaluates, except the conviction division, which can divide by zero and is
therefore modelled with an explicit JavaScript-number codomain JsNum).
JavaScript objects used as counting maps preserve string-key insertion
order; they are modelled as association lists with in-place increment and
append-on-miss.  Array.prototype.sort is stable, so it is modelled by a
stable insertion sort with the same comparator.
-/

namespace RetailIQ

/-- Result of a JavaScript division that may divide by zero:
either a finite number, Infinity, -Infinity, or NaN. -/
inductive JsNum where
  | num (q : ℚ)
  | posInf
  | negInf
  | nan
deriving DecidableEq, Repr

/-- JavaScript division x / y on (exactly represented) numbers:
division by zero yields Infinity / -Infinity / NaN according to the sign
of the numerator. -/
def jsDiv (x y : ℚ) : JsNum :=
  if y = 0 then
    if 0 < x then JsNum.posInf else if x < 0 then JsNum.negInf else JsNum.nan
  else JsNum.num (x / y)

/-- Code-unit lexicographic comparison of character lists, mirroring the
comparison JavaScript performs on strings (for the ASCII item names used
here, code units and code points agree). -/
def strLtB : List Char → List Char → Bool
  | [], [] => false
  | [], _ :: _ => true
  | _ :: _, [] => false
  | x :: xs, y :: ys =>
    if x.toNat < y.toNat then true
    else if y.toNat < x.toNat then false
    else strLtB xs ys

/-- JavaScript string comparison s < t. -/
def jsStrLt (s t : String) : Bool := strLtB s.data t.data

/-- JavaScript split on the four-character separator of the pair key:
scan left to right, cut at each leftmost occurrence of space, dash,
greater-than, space.  This is the behaviour of
String.prototype.split(' -> ') with a plain string separator. -/
def splitArrow : List Char → List (List Char)
  | ' ' :: '-' :: '>' :: ' ' :: rest => [] :: splitArrow rest
  | c :: rest =>
    match splitArrow rest with
    | [] => [[c]]
    | p :: ps => (c :: p) :: ps
  | [] => [[]]

/-- The string-level split pair.split(' -> ') used by the rule loop. -/
def jsSplitArrow (s : String) : List String :=
  (splitArrow s.data).map String.mk

/-- A product name that round-trips through the pair key: splitting it
alone yields itself, and splitting it followed by the separator cuts
exactly at the separator.  Every name without the substring of the
separator (and not ending in space, dash, greater-than) satisfies this;
names such as the literal P followed by the separator and Q do not. -/
def cleanName (s : String) : Prop :=
  splitArrow s.data = [s.data] ∧
  splitArrow (s.data ++ [' ', '-', '>', ' ']) = [s.data, []]

instance (s : String) : Decidable (cleanName s) := by
  unfold cleanName
  exact inferInstance

/-- One row of the transaction table (the fields used by
processMarketBasketData; total_amount is the already-parsed number). -/
structure Transaction where
  customer_id : String
  date : String
  product_name : String
  total_amount : ℚ
deriving DecidableEq, Repr

/-- A basket grouped by customer and date, as built by
processMarketBasketData. -/
structure Basket where
  customer_id : String
  date : String
  products : List String
  total : ℚ
deriving DecidableEq, Repr

/-- The rule object pushed by generateAssociationRules. -/
structure Rule where
  id : ℕ
  antecedent : List String
  consequent : List String
  support : ℚ
  confidence : ℚ
  lift : ℚ
  conviction : JsNum
  transactions : ℕ
  expectedRevenue : ℕ
  strength : String
deriving DecidableEq, Repr

/-- The itemset object produced by generateFrequentItemsets. -/
structure Itemset where
  items : List String
  frequency : ℕ
  support : ℚ
deriving DecidableEq, Repr

/-- The record returned by processMarketBasketData. -/
structure MarketBasketResult where
  baskets : List Basket
  associationRules : List Rule
  frequentItemsets : List Itemset
deriving DecidableEq, Repr

/-- Model of the JavaScript counting idiom obj[k] = (obj[k] || 0) + 1 on a
plain object: increment in place if the key is present, append (k, 1)
otherwise (string-keyed objects preserve insertion order). -/
def bump {K : Type} [DecidableEq K] : List (K × ℕ) → K → List (K × ℕ)
  | [], k => [(k, 1)]
  | (k', c) :: m, k => if k = k' then (k', c + 1) :: m else (k', c) :: bump m k

/-- Counting map built by bumping every element of a list in order. -/
def buildCounts {K : Type} [DecidableEq K] (l : List K) : List (K × ℕ) :=
  l.foldl bump []

/-- Lookup in a counting map; 0 when absent (the JavaScript obj[k] || 0). -/
def getCount {K : Type} [DecidableEq K] : List (K × ℕ) → K → ℕ
  | [], _ => 0
  | (k', c) :: m, k => if k = k' then c else getCount m k

/-- Number of occurrences of an element in a list (spelled out so that it
matches the lookup discipline of getCount). -/
def occCount {K : Type} [DecidableEq K] : List K → K → ℕ
  | [], _ => 0
  | x :: xs, k => occCount xs k + if k = x then 1 else 0

/-- The JavaScript obj[k] || 1 fallback applied to a count
(absent keys read as 1; present counts are always positive). -/
def orOne (n : ℕ) : ℕ := if n = 0 then 1 else n

/-- The pair key [u, v].sort() built by generateAssociationRules:
the two names in JavaScript-string order. -/
def sortPair (u v : String) : String × String :=
  if jsStrLt v u then (v, u) else (u, v)

/-- The joined pair key [u, v].sort().join(' -> ') of
generateAssociationRules. -/
def pairKeyOf (u v : String) : String :=
  (sortPair u v).1 ++ " -> " ++ (sortPair u v).2

/-- All pair keys [products[i], products[j]].sort().join(' -> ') with
i < j, in the order the double loop of generateAssociationRules visits
them. -/
def pairsOf : List String → List String
  | [] => []
  | x :: xs => xs.map (pairKeyOf x) ++ pairsOf xs

/-- Every product occurrence of every basket, in traversal order. -/
def allProducts (baskets : List Basket) : List String :=
  (baskets.map Basket.products).flatten

/-- Every in-basket pair key, in traversal order. -/
def allPairs (baskets : List Basket) : List String :=
  (baskets.map (fun b => pairsOf b.products)).flatten

/-- The singleProducts counting object of generateAssociationRules.
The JavaScript loop interleaves the single and pair bumps per basket, but
the two objects are disjoint, so each equals the counts of its own
flattened occurrence list. -/
def singleProducts (baskets : List Basket) : List (String × ℕ) :=
  buildCounts (allProducts baskets)

/-- The productPairs counting object of generateAssociationRules, keyed
by the joined pair strings. -/
def productPairs (baskets : List Basket) : List (String × ℕ) :=
  buildCounts (allPairs baskets)

/-- The body of the Object.entries(productPairs).forEach loop of
generateAssociationRules: split the joined key back on ' -> ' and
destructure the first two parts as antecedent and consequent (a key
always contains the separator, so both parts exist and the defaults of
getD are never used), then push a rule when the hard-coded filter
support >= 0.05 && confidence >= 0.5 && lift > 1 passes. -/
def mkCandidate (totalBaskets : ℕ) (sp : List (String × ℕ)) (idx : ℕ)
    (key : String) (count : ℕ) : Option Rule :=
  let parts := jsSplitArrow key
  let antecedent := parts.getD 0 ""
  let consequent := parts.getD 1 ""
  let support : ℚ := (count : ℚ) / totalBaskets
  let confidence : ℚ := (count : ℚ) / (orOne (getCount sp antecedent) : ℚ)
  let lift : ℚ :=
    confidence / ((orOne (getCount sp consequent) : ℚ) / totalBaskets)
  if 0.05 ≤ support ∧ 0.5 ≤ confidence ∧ 1 < lift then
    some { id := idx + 1
           antecedent := [antecedent]
           consequent := [consequent]
           support := support
           confidence := confidence
           lift := lift
           conviction :=
             jsDiv (1 - (orOne (getCount sp consequent) : ℚ) / totalBaskets)
               (1 - confidence)
           transactions := count
           expectedRevenue := count * 50
           strength :=
             if 2.5 < lift then "Very Strong"
             else if 2 < lift then "Strong" else "Moderate" }
  else none

/-- Stable insertion (descending by key): the new element goes after every
element whose key is at least its own, exactly as a stable sort with the
comparator (a, b) => key b - key a places it. -/
def insDesc {α : Type} (key : α → ℚ) (x : α) : List α → List α
  | [] => [x]
  | y :: ys => if key x ≤ key y then y :: insDesc key x ys else x :: y :: ys

/-- Stable descending sort by a rational key, the model of the stable
Array.prototype.sort with comparator (a, b) => key b - key a. -/
def sortDesc {α : Type} (key : α → ℚ) (l : List α) : List α :=
  l.foldl (fun acc x => insDesc key x acc) []

/-- The rules array after the forEach loop of generateAssociationRules,
before sorting and slicing: one entry per productPairs entry that passes
the filter, in entry order. -/
def pushedRules (baskets : List Basket) : List Rule :=
  (productPairs baskets).enum.filterMap
    (fun e => mkCandidate baskets.length (singleProducts baskets)
      e.1 e.2.1 e.2.2)

/-- generateAssociationRules of csvDataProcessor.js: count singles and
joined pair keys, turn each pair entry into a rule when the hard-coded
filter passes, sort by lift descending, keep the first 10. -/
def generateAssociationRules (baskets : List Basket) : List Rule :=
  (sortDesc (fun r => r.lift) (pushedRules baskets)).take 10

/-- generateFrequentItemsets of csvDataProcessor.js: count every product
occurrence, sort entries by count descending, keep the first 10, wrap each
as a singleton itemset. -/
def generateFrequentItemsets (baskets : List Basket) : List Itemset :=
  let itemCounts := buildCounts (allProducts baskets)
  ((sortDesc (fun e => (e.2 : ℚ)) itemCounts).take 10).map
    (fun e => { items := [e.1], frequency := e.2,
                support := (e.2 : ℚ) / baskets.length })

/-- The grouping key customer_id + "_" + date used by
processMarketBasketData. -/
def basketKey (t : Transaction) : String := t.customer_id ++ "_" ++ t.date

/-- One step of the grouping loop of processMarketBasketData: find (or
create) the basket for the transaction's key, push the product and add the
amount. -/
def addTransaction : List (String × Basket) → Transaction → List (String × Basket)
  | [], t =>
    [(basketKey t,
      { customer_id := t.customer_id, date := t.date,
        products := [t.product_name], total := t.total_amount })]
  | (k, b) :: m, t =>
    if basketKey t = k then
      (k, { b with products := b.products ++ [t.product_name],
                   total := b.total + t.total_amount }) :: m
    else (k, b) :: addTransaction m t

/-- processMarketBasketData of csvDataProcessor.js: group the transactions
into baskets, then run both generators.  The function performs no input
validation and never throws. -/
def processMarketBasketData (transactions : List Transaction) : MarketBasketResult :=
  let basketArray := (transactions.foldl addTransaction []).map Prod.snd
  { baskets := basketArray
    associationRules := generateAssociationRules basketArray
    frequentItemsets := generateFrequentItemsets basketArray }

/-- Number of occurrences of a joined pair key among all in-basket pair
keys (the final value of productPairs[pair]). -/
def pairOccurrences (baskets : List Basket) (key : String) : ℕ :=
  occCount (allPairs baskets) key

/-- The antecedent the rule loop reads back from a joined key. -/
def pairAntecedent (key : String) : String := (jsSplitArrow key).getD 0 ""

/-- The consequent the rule loop reads back from a joined key. -/
def pairConsequent (key : String) : String := (jsSplitArrow key).getD 1 ""


/-- Number of occurrences of a product across all baskets
(the final value of singleProducts[p]). -/
def itemOccurrences (baskets : List Basket) (p : String) : ℕ :=
  occCount (allProducts baskets) p

/-- Support of a single item, occurrences / number of baskets. -/
def itemSupport (baskets : List Basket) (p : String) : ℚ :=
  (itemOccurrences baskets p : ℚ) / baskets.length

/-- The support the rule loop computes for a pair entry. -/
def pairSupport (baskets : List Basket) (key : String) : ℚ :=
  (pairOccurrences baskets key : ℚ) / baskets.length

/-- The confidence the rule loop computes for a pair entry. -/
def pairConfidence (baskets : List Basket) (key : String) : ℚ :=
  (pairOccurrences baskets key : ℚ) /
    (orOne (itemOccurrences baskets (pairAntecedent key)) : ℚ)

/-- The lift the rule loop computes for a pair entry. -/
def pairLift (baskets : List Basket) (key : String) : ℚ :=
  pairConfidence baskets key /
    ((orOne (itemOccurrences baskets (pairConsequent key)) : ℚ) /
      baskets.length)

/-- A basket with only its product list (the generators read nothing
else). -/
def mkBasket (ps : List String) : Basket :=
  { customer_id := "", date := "", products := ps, total := 0 }

/-- The five-transaction scenario of the spec:
[[bread,butter,milk],[bread,butter],[bread,milk],[butter,milk],[bread,butter,milk]]. -/
def scenarioBaskets : List Basket :=
  [mkBasket ["bread", "butter", "milk"],
   mkBasket ["bread", "butter"],
   mkBasket ["bread", "milk"],
   mkBasket ["butter", "milk"],
   mkBasket ["bread", "butter", "milk"]]

/-- The degenerate dataset of the spec: the basket containing A and B,
bought 10 times, nothing else. -/
def degenerateBaskets : List Basket :=
  List.replicate 10 (mkBasket ["A", "B"])

/-- Four baskets producing two rules with equal lift 2 but confidences
1/2 and 1, in that candidate order. -/
def tieBaskets : List Basket :=
  [mkBasket ["A", "B"], mkBasket ["A"], mkBasket ["C", "D"], mkBasket ["D"]]

/-- A basket with a duplicated product next to a singleton basket; the
rule A -> B it generates has confidence 2. -/
def dupBaskets : List Basket :=
  [mkBasket ["A", "B", "B"], mkBasket ["C"]]

/-- Three baskets whose single rule A -> B has confidence exactly 1, so
its conviction divides by zero. -/
def confOneBaskets : List Basket :=
  [mkBasket ["A", "B"], mkBasket ["A", "B"], mkBasket ["C"]]

/-- The first rule generateAssociationRules produces on tieBaskets. -/
def ruleTieAB : Rule :=
  { id := 1, antecedent := ["A"], consequent := ["B"], support := 1/4,
    confidence := 1/2, lift := 2, conviction := JsNum.num (3/2),
    transactions := 1, expectedRevenue := 50, strength := "Moderate" }

/-- The second rule generateAssociationRules produces on tieBaskets. -/
def ruleTieCD : Rule :=
  { id := 2, antecedent := ["C"], consequent := ["D"], support := 1/4,
    confidence := 1, lift := 2, conviction := JsNum.posInf,
    transactions := 1, expectedRevenue := 50, strength := "Moderate" }

/-- The rule generateAssociationRules produces on confOneBaskets. -/
def ruleConfOne : Rule :=
  { id := 1, antecedent := ["A"], consequent := ["B"], support := 2/3,
    confidence := 1, lift := 3/2, conviction := JsNum.posInf,
    transactions := 2, expectedRevenue := 100, strength := "Moderate" }

/-- The rule generateAssociationRules produces on dupBaskets; note the
confidence of 2. -/
def ruleDup : Rule :=
  { id := 1, antecedent := ["A"], consequent := ["B"], support := 1,
    confidence := 2, lift := 2, conviction := JsNum.num 0,
    transactions := 2, expectedRevenue := 100, strength := "Moderate" }

/-- Two duplicate-free baskets whose only product pair involves a name
that itself contains the separator, so the joined key re-splits into
three parts and the read-back antecedent is absent from singleProducts. -/
def sepBaskets : List Basket :=
  [mkBasket ["P -> Q", "R"], mkBasket ["P -> Q", "R"]]

/-- The rule generateAssociationRules produces on sepBaskets: the key
splits to antecedent P and consequent Q, both absent, so the || 1
fallbacks give confidence 2 and lift 4. -/
def ruleSep : Rule :=
  { id := 1, antecedent := ["P"], consequent := ["Q"], support := 1,
    confidence := 2, lift := 4, conviction := JsNum.num (-(1/2)),
    transactions := 2, expectedRevenue := 100, strength := "Very Strong" }

/-- The predicted value for day i of the horizon:
lastSales * trendFactor * seasonalFactor. -/
noncomputable def predictedAt (lastSales : ℝ) (i : ℕ) : ℝ :=
  lastSales * (1 + i * 0.002) * (1 + Real.sin (i * Real.pi / 15) * 0.1)

/-- JavaScript Math.round. -/
noncomputable def jsRound (x : ℝ) : ℤ := ⌊x + 1/2⌋

/-- The lowerBound field: Math.round(predicted * 0.85). -/
noncomputable def lowerBoundAt (lastSales : ℝ) (i : ℕ) : ℤ :=
  jsRound (predictedAt lastSales i * 0.85)

/-- The upperBound field: Math.round(predicted * 1.15). -/
noncomputable def upperBoundAt (lastSales : ℝ) (i : ℕ) : ℤ :=
  jsRound (predictedAt lastSales i * 1.15)

/-- The confidence-interval width of the day-i forecast point. -/
noncomputable def intervalWidth (lastSales : ℝ) (i : ℕ) : ℤ :=
  upperBoundAt lastSales i - lowerBoundAt lastSales i

/-- The confidence field: Math.max(70, 95 - i * 1). -/
def predConfidence (i : ℕ) : ℚ := max 70 (95 - (i : ℚ))

/-- One element of the predictions array of processSalesData. -/
structure PredictionPoint where
  predicted : ℤ
  lowerBound : ℤ
  upperBound : ℤ
  confidence : ℚ

/-- The predictions array built by the loop for i = 1 .. 30. -/
noncomputable def salesPredictions (lastSales : ℝ) : List PredictionPoint :=
  (List.range 30).map (fun k =>
    { predicted := jsRound (predictedAt lastSales (k + 1))
      lowerBound := lowerBoundAt lastSales (k + 1)
      upperBound := upperBoundAt lastSales (k + 1)
      confidence := predConfidence (k + 1) })

end RetailIQ

namespace RetailIQ

section SortLemmas

variable {α : Type} (key : α → ℚ)

theorem mem_insDesc (a x : α) (l : List α) :
    x ∈ insDesc key a l ↔ x = a ∨ x ∈ l := by
  induction l with
  | nil => simp [insDesc]
  | cons y ys ih =>
    by_cases h : key a ≤ key y
    · simp [insDesc, h, ih]
      tauto
    · simp [insDesc, h]

theorem mem_foldl_insDesc (x : α) (l : List α) :
    ∀ acc : List α,
      (x ∈ l.foldl (fun acc e => insDesc key e acc) acc ↔ x ∈ l ∨ x ∈ acc) := by
  induction l with
  | nil => simp
  | cons y ys ih =>
    intro acc
    rw [List.foldl_cons, ih, mem_insDesc]
    simp [List.mem_cons]
    tauto

theorem mem_sortDesc (x : α) (l : List α) : x ∈ sortDesc key l ↔ x ∈ l := by
  simp [sortDesc, mem_foldl_insDesc]

theorem pairwise_insDesc (x : α) (l : List α)
    (h : l.Pairwise fun a b => key b ≤ key a) :
    (insDesc key x l).Pairwise fun a b => key b ≤ key a := by
  induction l with
  | nil => simp [insDesc]
  | cons y ys ih =>
    rcases List.pairwise_cons.mp h with ⟨hy, hys⟩
    by_cases hk : key x ≤ key y
    · rw [insDesc, if_pos hk]
      refine List.pairwise_cons.mpr ⟨?_, ih hys⟩
      intro z hz
      rcases (mem_insDesc key x z ys).mp hz with rfl | hz'
      · exact hk
      · exact hy z hz'
    · rw [insDesc, if_neg hk]
      refine List.pairwise_cons.mpr ⟨?_, h⟩
      intro z hz
      rcases List.mem_cons.mp hz with rfl | hz'
      · exact le_of_lt (lt_of_not_le hk)
      · exact le_trans (hy z hz') (le_of_lt (lt_of_not_le hk))

theorem pairwise_foldl_insDesc (l : List α) :
    ∀ acc : List α, (acc.Pairwise fun a b => key b ≤ key a) →
      (l.foldl (fun acc e => insDesc key e acc) acc).Pairwise
        fun a b => key b ≤ key a := by
  induction l with
  | nil => exact fun acc h => h
  | cons y ys ih =>
    intro acc hacc
    exact ih _ (pairwise_insDesc key y acc hacc)

theorem sortDesc_pairwise (l : List α) :
    (sortDesc key l).Pairwise fun a b => key b ≤ key a :=
  pairwise_foldl_insDesc key l [] List.Pairwise.nil

theorem insDesc_perm (x : α) (l : List α) : (insDesc key x l).Perm (x :: l) := by
  induction l with
  | nil => exact List.Perm.refl _
  | cons y ys ih =>
    by_cases h : key x ≤ key y
    · rw [insDesc, if_pos h]
      exact (ih.cons y).trans (List.Perm.swap x y ys)
    · rw [insDesc, if_neg h]

theorem sortDesc_perm_aux (l : List α) :
    ∀ acc : List α,
      (l.foldl (fun acc x => insDesc key x acc) acc).Perm (l ++ acc) := by
  induction l with
  | nil => exact fun acc => List.Perm.refl _
  | cons x xs ih =>
    intro acc
    rw [List.foldl_cons]
    have h1 := ih (insDesc key x acc)
    have h2 : (xs ++ insDesc key x acc).Perm (xs ++ x :: acc) :=
      List.Perm.append_left xs (insDesc_perm key x acc)
    exact h1.trans (h2.trans List.perm_middle)

theorem sortDesc_perm (l : List α) : (sortDesc key l).Perm l := by
  have h := sortDesc_perm_aux key l []
  simpa using h

theorem pairwise_take_drop {R : α → α → Prop} {l : List α}
    (h : l.Pairwise R) (n : ℕ) :
    ∀ x ∈ l.take n, ∀ y ∈ l.drop n, R x y := by
  have h2 : ((l.take n) ++ (l.drop n)).Pairwise R := by
    rw [List.take_append_drop]
    exact h
  exact (List.pairwise_append.mp h2).2.2

end SortLemmas

section CountLemmas

variable {K : Type} [DecidableEq K]

theorem getCount_bump (m : List (K × ℕ)) (k k' : K) :
    getCount (bump m k) k' = getCount m k' + if k' = k then 1 else 0 := by
  induction m with
  | nil =>
    simp only [bump, getCount]
    split_ifs <;> rfl
  | cons e m ih =>
    obtain ⟨a, c⟩ := e
    by_cases hk : k = a
    · subst hk
      simp only [bump, if_pos rfl, getCount]
      by_cases h' : k' = k <;> simp [h']
    · simp only [bump, if_neg hk, getCount]
      by_cases h' : k' = a
      · have hne : k' ≠ k := fun hh => hk (hh.symm.trans h')
        simp [h', hne]
        exact fun hh => hk hh.symm
      · simp [h', ih]

theorem getCount_foldl_bump (l : List K) :
    ∀ (m : List (K × ℕ)) (k : K),
      getCount (l.foldl bump m) k = getCount m k + occCount l k := by
  induction l with
  | nil => simp [occCount]
  | cons x xs ih =>
    intro m k
    rw [List.foldl_cons, ih, getCount_bump]
    simp only [occCount]
    omega

theorem getCount_buildCounts (l : List K) (k : K) :
    getCount (buildCounts l) k = occCount l k := by
  rw [buildCounts, getCount_foldl_bump]
  simp [getCount]

theorem occCount_append (l1 l2 : List K) (k : K) :
    occCount (l1 ++ l2) k = occCount l1 k + occCount l2 k := by
  induction l1 with
  | nil => simp [occCount]
  | cons x xs ih =>
    simp only [List.cons_append, occCount, List.append_eq]
    rw [ih]
    omega

theorem occCount_pos_iff {l : List K} {k : K} : 0 < occCount l k ↔ k ∈ l := by
  induction l with
  | nil => simp [occCount]
  | cons x xs ih =>
    simp only [occCount, List.mem_cons]
    by_cases h : k = x <;> simp [h, ih]

theorem occCount_le_one_of_nodup {l : List K} (h : l.Nodup) (k : K) :
    occCount l k ≤ 1 := by
  induction l with
  | nil => simp [occCount]
  | cons x xs ih =>
    rcases List.nodup_cons.mp h with ⟨hx, hxs⟩
    simp only [occCount]
    by_cases hk : k = x
    · subst hk
      have : occCount xs k = 0 := by
        by_contra hc
        exact hx (occCount_pos_iff.mp (by omega))
      simp [this]
    · simp [hk]
      exact ih hxs

theorem mem_keys_bump {m : List (K × ℕ)} {k x : K}
    (h : x ∈ (bump m k).map Prod.fst) : x ∈ m.map Prod.fst ∨ x = k := by
  induction m with
  | nil =>
    simp [bump] at h
    exact Or.inr h
  | cons e m ih =>
    obtain ⟨a, c⟩ := e
    by_cases hk : k = a
    · simp [bump, hk] at h
      simp [h]
    · simp only [bump, if_neg hk, List.map_cons, List.mem_cons] at h
      rcases h with rfl | h
      · exact Or.inl (by simp)
      · rcases ih h with h' | h'
        · exact Or.inl (by simp [h'])
        · exact Or.inr h'

theorem keys_nodup_bump {m : List (K × ℕ)} (k : K)
    (h : (m.map Prod.fst).Nodup) : ((bump m k).map Prod.fst).Nodup := by
  induction m with
  | nil => simp [bump]
  | cons e m ih =>
    obtain ⟨a, c⟩ := e
    simp only [List.map_cons, List.nodup_cons] at h
    by_cases hk : k = a
    · simp only [bump, if_pos hk, List.map_cons, List.nodup_cons]
      exact h
    · simp only [bump, if_neg hk, List.map_cons, List.nodup_cons]
      refine ⟨fun hmem => ?_, ih h.2⟩
      rcases mem_keys_bump hmem with h' | h'
      · exact h.1 h'
      · exact hk h'.symm

theorem keys_nodup_foldl_bump (l : List K) :
    ∀ m : List (K × ℕ), (m.map Prod.fst).Nodup →
      ((l.foldl bump m).map Prod.fst).Nodup := by
  induction l with
  | nil => exact fun m h => h
  | cons x xs ih => exact fun m h => ih _ (keys_nodup_bump x h)

theorem buildCounts_keys_nodup (l : List K) :
    ((buildCounts l).map Prod.fst).Nodup :=
  keys_nodup_foldl_bump l [] (by simp)

theorem getCount_eq_of_mem {m : List (K × ℕ)}
    (h : (m.map Prod.fst).Nodup) {k : K} {c : ℕ} (hm : (k, c) ∈ m) :
    getCount m k = c := by
  induction m with
  | nil => cases hm
  | cons e m ih =>
    obtain ⟨a, d⟩ := e
    simp only [List.map_cons, List.nodup_cons] at h
    rcases List.mem_cons.mp hm with heq | hm'
    · cases heq
      simp [getCount]
    · have hk : k ≠ a := by
        intro rfl
        exact h.1 (List.mem_map.mpr ⟨(k, c), hm', rfl⟩)
      simp only [getCount, if_neg hk]
      exact ih h.2 hm'

theorem pos_of_mem_bump {m : List (K × ℕ)} (k : K)
    (hp : ∀ e ∈ m, 0 < e.2) : ∀ e ∈ bump m k, 0 < e.2 := by
  induction m with
  | nil =>
    intro e he
    simp [bump] at he
    simp [he]
  | cons f m ih =>
    obtain ⟨a, c⟩ := f
    intro e he
    by_cases hk : k = a
    · simp only [bump, if_pos hk, List.mem_cons] at he
      rcases he with rfl | he
      · simp
      · exact hp e (List.mem_cons_of_mem _ he)
    · simp only [bump, if_neg hk, List.mem_cons] at he
      rcases he with rfl | he
      · exact hp _ (List.mem_cons_self _ _)
      · exact ih (fun e he => hp e (List.mem_cons_of_mem _ he)) e he

theorem pos_of_mem_foldl_bump (l : List K) :
    ∀ m : List (K × ℕ), (∀ e ∈ m, 0 < e.2) →
      ∀ e ∈ l.foldl bump m, 0 < e.2 := by
  induction l with
  | nil => exact fun m h => h
  | cons x xs ih => exact fun m h => ih _ (pos_of_mem_bump x h)

theorem mem_buildCounts {l : List K} {k : K} {c : ℕ}
    (h : (k, c) ∈ buildCounts l) : c = occCount l k ∧ k ∈ l := by
  have h1 : getCount (buildCounts l) k = c :=
    getCount_eq_of_mem (buildCounts_keys_nodup l) h
  have h2 : c = occCount l k := by rw [← h1, getCount_buildCounts]
  have h3 : 0 < c := pos_of_mem_foldl_bump l [] (by simp) _ h
  refine ⟨h2, ?_⟩
  rw [← occCount_pos_iff]
  omega

end CountLemmas

end RetailIQ

namespace RetailIQ

section StrLemmas

theorem sortPair_cases (u v : String) :
    sortPair u v = (u, v) ∨ sortPair u v = (v, u) := by
  rw [sortPair]
  split_ifs <;> simp

end StrLemmas

section SplitLemmas

theorem splitArrow_fire (t : List Char) :
    splitArrow (' ' :: '-' :: '>' :: ' ' :: t) = [] :: splitArrow t := rfl

theorem strMk_data (s : String) : String.mk s.data = s := rfl

theorem sortPair_inj_left {x q1 q2 : String}
    (h : sortPair x q1 = sortPair x q2) : q1 = q2 := by
  rcases sortPair_cases x q1 with h1 | h1 <;>
    rcases sortPair_cases x q2 with h2 | h2 <;>
      rw [h1, h2] at h <;> injection h with ha hb <;>
        first
          | exact hb
          | exact ha
          | exact hb.trans ha
          | exact ha.trans hb

theorem splitArrow_append (a : List Char) (rest : List Char)
    (h : splitArrow (a ++ [' ', '-', '>', ' ']) = [a, []]) :
    splitArrow (a ++ [' ', '-', '>', ' '] ++ rest) = a :: splitArrow rest := by
  induction a with
  | nil => simpa using splitArrow_fire rest
  | cons c a2 ih =>
    have hnf : ∀ r1 : List Char, c = ' ' →
        a2 ++ [' ', '-', '>', ' '] = '-' :: '>' :: ' ' :: r1 → False := by
      intro r1 hc hr
      subst hc
      rw [List.cons_append, hr, splitArrow_fire] at h
      simp at h
    rw [List.cons_append, splitArrow.eq_2 c (a2 ++ [' ', '-', '>', ' ']) hnf] at h
    rcases hh : splitArrow (a2 ++ [' ', '-', '>', ' ']) with _ | ⟨p, ps⟩
    · rw [hh] at h
      simp at h
    · rw [hh] at h
      simp at h
      obtain ⟨h1, h2⟩ := h
      rw [h1, h2] at hh
      have hrec := ih hh
      have hnf2 : ∀ r1 : List Char, c = ' ' →
          a2 ++ [' ', '-', '>', ' '] ++ rest = '-' :: '>' :: ' ' :: r1 → False := by
        intro r1 hc hr
        rcases a2 with _ | ⟨x, a3⟩
        · rw [List.nil_append, List.cons_append] at hr
          injection hr with hx _
          exact absurd hx (by decide)
        · rcases a3 with _ | ⟨y, a4⟩
          · simp only [List.cons_append, List.nil_append] at hr
            injection hr with hx hr2
            injection hr2 with hy _
            exact absurd hy (by decide)
          · rcases a4 with _ | ⟨z, a5⟩
            · simp only [List.cons_append, List.nil_append] at hr
              injection hr with hx hr2
              injection hr2 with hy hr3
              subst hx
              subst hy
              exact hnf ['-', '>', ' '] hc rfl
            · simp only [List.cons_append] at hr
              injection hr with hx hr2
              injection hr2 with hy hr3
              injection hr3 with hz _
              subst hx
              subst hy
              subst hz
              exact hnf (a5 ++ [' ', '-', '>', ' ']) hc rfl
      rw [List.cons_append, List.cons_append,
        splitArrow.eq_2 c (a2 ++ [' ', '-', '>', ' '] ++ rest) hnf2, hrec]

theorem jsSplitArrow_pairKeyOf {u v : String}
    (hu : cleanName u) (hv : cleanName v) :
    jsSplitArrow (pairKeyOf u v) = [(sortPair u v).1, (sortPair u v).2] := by
  have harr : (" -> " : String).data = [' ', '-', '>', ' '] := rfl
  rcases sortPair_cases u v with hc | hc <;> rw [pairKeyOf, hc] <;>
    rw [jsSplitArrow]
  · have hdata : (u ++ " -> " ++ v).data =
        u.data ++ [' ', '-', '>', ' '] ++ v.data := by
      rw [String.data_append, String.data_append, harr]
    rw [hdata, splitArrow_append _ _ hu.2, hv.1]
    simp [strMk_data]
  · have hdata : (v ++ " -> " ++ u).data =
        v.data ++ [' ', '-', '>', ' '] ++ u.data := by
      rw [String.data_append, String.data_append, harr]
    rw [hdata, splitArrow_append _ _ hv.2, hu.1]
    simp [strMk_data]

theorem pairAntecedent_key {u v : String}
    (hu : cleanName u) (hv : cleanName v) :
    pairAntecedent (pairKeyOf u v) = (sortPair u v).1 := by
  rw [pairAntecedent, jsSplitArrow_pairKeyOf hu hv]
  rfl

theorem pairKeyOf_inj_left {x q1 q2 : String} (hx : cleanName x)
    (h1 : cleanName q1) (h2 : cleanName q2)
    (h : pairKeyOf x q1 = pairKeyOf x q2) : q1 = q2 := by
  have e := congrArg jsSplitArrow h
  rw [jsSplitArrow_pairKeyOf hx h1, jsSplitArrow_pairKeyOf hx h2] at e
  have e1 : (sortPair x q1).1 = (sortPair x q2).1 ∧
      (sortPair x q1).2 = (sortPair x q2).2 := by simpa using e
  exact sortPair_inj_left (Prod.ext_iff.mpr e1)

end SplitLemmas

section PairsLemmas

theorem mem_pairsOf {l : List String} {key : String} (h : key ∈ pairsOf l) :
    ∃ x ∈ l, ∃ y ∈ l, key = pairKeyOf x y := by
  induction l with
  | nil => simp [pairsOf] at h
  | cons a xs ih =>
    simp only [pairsOf, List.mem_append, List.mem_map] at h
    rcases h with ⟨q, hq, rfl⟩ | h
    · exact ⟨a, by simp, q, by simp [hq], rfl⟩
    · obtain ⟨x, hx, y, hy, hk⟩ := ih h
      exact ⟨x, by simp [hx], y, by simp [hy], hk⟩

theorem sortPair_fst_mem {x y : String} {l : List String}
    (hx : x ∈ l) (hy : y ∈ l) : (sortPair x y).1 ∈ l := by
  rcases sortPair_cases x y with hc | hc <;> rw [hc]
  · exact hx
  · exact hy

theorem sortPair_snd_mem {x y : String} {l : List String}
    (hx : x ∈ l) (hy : y ∈ l) : (sortPair x y).2 ∈ l := by
  rcases sortPair_cases x y with hc | hc <;> rw [hc]
  · exact hy
  · exact hx

theorem pairsOf_nodup {l : List String} (hnd : l.Nodup)
    (hcl : ∀ p ∈ l, cleanName p) : (pairsOf l).Nodup := by
  induction l with
  | nil => simp [pairsOf]
  | cons x xs ih =>
    rcases List.nodup_cons.mp hnd with ⟨hx, hxs⟩
    rw [pairsOf]
    refine List.Nodup.append ?_
      (ih hxs (fun p hp => hcl p (List.mem_cons_of_mem _ hp))) ?_
    · refine List.Nodup.map_on ?_ hxs
      intro a ha b hb hab
      exact pairKeyOf_inj_left (hcl x (List.mem_cons_self x xs))
        (hcl a (List.mem_cons_of_mem _ ha)) (hcl b (List.mem_cons_of_mem _ hb))
        hab
    · intro key hk1 hk2
      rcases List.mem_map.mp hk1 with ⟨q, hq, rfl⟩
      obtain ⟨x2, hx2, y2, hy2, hkey⟩ := mem_pairsOf hk2
      have e := congrArg jsSplitArrow hkey
      rw [jsSplitArrow_pairKeyOf (hcl x (List.mem_cons_self x xs))
            (hcl q (List.mem_cons_of_mem _ hq)),
          jsSplitArrow_pairKeyOf (hcl x2 (List.mem_cons_of_mem _ hx2))
            (hcl y2 (List.mem_cons_of_mem _ hy2))] at e
      have e1 : (sortPair x q).1 = (sortPair x2 y2).1 ∧
          (sortPair x q).2 = (sortPair x2 y2).2 := by simpa using e
      have hxin : x ∈ xs := by
        rcases sortPair_cases x q with hc | hc
        · have hxx : x = (sortPair x2 y2).1 := by
            have h2 := e1.1
            rw [hc] at h2
            exact h2
          rw [hxx]
          exact sortPair_fst_mem hx2 hy2
        · have hxx : x = (sortPair x2 y2).2 := by
            have h2 := e1.2
            rw [hc] at h2
            exact h2
          rw [hxx]
          exact sortPair_snd_mem hx2 hy2
      exact hx hxin

theorem count_pairsOf_le {l : List String} (hnd : l.Nodup)
    (hcl : ∀ p ∈ l, cleanName p) (key : String) :
    occCount (pairsOf l) key ≤ occCount l (pairAntecedent key) := by
  by_cases hp : key ∈ pairsOf l
  · have h1 : occCount (pairsOf l) key ≤ 1 :=
      occCount_le_one_of_nodup (pairsOf_nodup hnd hcl) key
    obtain ⟨x, hx, y, hy, rfl⟩ := mem_pairsOf hp
    have ha : pairAntecedent (pairKeyOf x y) = (sortPair x y).1 :=
      pairAntecedent_key (hcl x hx) (hcl y hy)
    have h2 : 0 < occCount l (pairAntecedent (pairKeyOf x y)) := by
      rw [ha]
      exact occCount_pos_iff.mpr (sortPair_fst_mem hx hy)
    omega
  · have h0 : occCount (pairsOf l) key = 0 := by
      by_contra hc0
      exact hp (occCount_pos_iff.mp (by omega))
    omega

theorem allProducts_cons (b : Basket) (bs : List Basket) :
    allProducts (b :: bs) = b.products ++ allProducts bs := by
  simp [allProducts]

theorem allPairs_cons (b : Basket) (bs : List Basket) :
    allPairs (b :: bs) = pairsOf b.products ++ allPairs bs := by
  simp [allPairs]

theorem count_allPairs_le {bs : List Basket}
    (h : ∀ b ∈ bs, b.products.Nodup)
    (hcl : ∀ b ∈ bs, ∀ p ∈ b.products, cleanName p) (key : String) :
    occCount (allPairs bs) key ≤
      occCount (allProducts bs) (pairAntecedent key) := by
  induction bs with
  | nil => simp [allPairs, allProducts, occCount]
  | cons b bs ih =>
    rw [allPairs_cons, allProducts_cons, occCount_append, occCount_append]
    have h1 := count_pairsOf_le (h b (List.mem_cons_self b bs))
      (hcl b (List.mem_cons_self b bs)) key
    have h2 := ih (fun x hx => h x (List.mem_cons_of_mem _ hx))
      (fun x hx => hcl x (List.mem_cons_of_mem _ hx))
    omega

theorem count_allProducts_le_length {bs : List Basket}
    (h : ∀ b ∈ bs, b.products.Nodup) (a : String) :
    occCount (allProducts bs) a ≤ bs.length := by
  induction bs with
  | nil => simp [allProducts, occCount]
  | cons b bs ih =>
    rw [allProducts_cons, occCount_append, List.length_cons]
    have h1 : occCount b.products a ≤ 1 :=
      occCount_le_one_of_nodup (h b (List.mem_cons_self b bs)) a
    have h2 := ih (fun x hx => h x (List.mem_cons_of_mem _ hx))
    omega

theorem mem_allPairs_elim {bs : List Basket} {key : String}
    (h : key ∈ allPairs bs) : ∃ b ∈ bs, key ∈ pairsOf b.products := by
  rw [allPairs] at h
  rcases List.mem_flatten.mp h with ⟨l, hl, hp⟩
  rcases List.mem_map.mp hl with ⟨b, hb, rfl⟩
  exact ⟨b, hb, hp⟩

theorem mem_allProducts_of_mem {bs : List Basket} {b : Basket} {a : String}
    (hb : b ∈ bs) (ha : a ∈ b.products) : a ∈ allProducts bs := by
  rw [allProducts]
  exact List.mem_flatten.mpr ⟨b.products, List.mem_map.mpr ⟨b, hb, rfl⟩, ha⟩

theorem mem_allPairs_antecedent {bs : List Basket}
    (hcl : ∀ b ∈ bs, ∀ p ∈ b.products, cleanName p) {key : String}
    (h : key ∈ allPairs bs) : pairAntecedent key ∈ allProducts bs := by
  rcases mem_allPairs_elim h with ⟨b, hb, hkp⟩
  obtain ⟨x, hx, y, hy, rfl⟩ := mem_pairsOf hkp
  rw [pairAntecedent_key (hcl b hb x hx) (hcl b hb y hy)]
  exact mem_allProducts_of_mem hb (sortPair_fst_mem hx hy)

end PairsLemmas

end RetailIQ

namespace RetailIQ

section RuleExtraction

theorem one_le_orOne (n : ℕ) : 1 ≤ orOne n := by
  rw [orOne]
  split_ifs <;> omega

theorem orOne_of_pos {n : ℕ} (h : 0 < n) : orOne n = n := by
  rw [orOne, if_neg (by omega)]

theorem snd_mem_of_mem_enumFrom {α : Type} (l : List α) :
    ∀ (n : ℕ) (e : ℕ × α), e ∈ l.enumFrom n → e.2 ∈ l := by
  induction l with
  | nil =>
    intro n e h
    simp [List.enumFrom] at h
  | cons x xs ih =>
    intro n e h
    simp only [List.enumFrom, List.mem_cons] at h
    rcases h with rfl | h
    · simp
    · exact List.mem_cons_of_mem _ (ih (n + 1) e h)

theorem snd_mem_of_mem_enum {α : Type} {l : List α} {e : ℕ × α}
    (h : e ∈ l.enum) : e.2 ∈ l :=
  snd_mem_of_mem_enumFrom l 0 e h

theorem mkCandidate_some_elim {N idx c : ℕ} {sp : List (String × ℕ)}
    {key : String} {r : Rule}
    (h : mkCandidate N sp idx key c = some r) :
    (0.05 : ℚ) ≤ (c : ℚ) / N ∧
    (0.5 : ℚ) ≤ (c : ℚ) / (orOne (getCount sp (pairAntecedent key)) : ℚ) ∧
    1 < (c : ℚ) / (orOne (getCount sp (pairAntecedent key)) : ℚ) /
        ((orOne (getCount sp (pairConsequent key)) : ℚ) / N) ∧
    r.antecedent = [pairAntecedent key] ∧
    r.consequent = [pairConsequent key] ∧
    r.support = (c : ℚ) / N ∧
    r.confidence = (c : ℚ) / (orOne (getCount sp (pairAntecedent key)) : ℚ) ∧
    r.lift = (c : ℚ) / (orOne (getCount sp (pairAntecedent key)) : ℚ) /
        ((orOne (getCount sp (pairConsequent key)) : ℚ) / N) ∧
    r.conviction =
      jsDiv (1 - (orOne (getCount sp (pairConsequent key)) : ℚ) / N)
        (1 - (c : ℚ) / (orOne (getCount sp (pairAntecedent key)) : ℚ)) := by
  rw [mkCandidate] at h
  split at h
  case isTrue hcond =>
    obtain rfl := Option.some.inj h
    exact ⟨hcond.1, hcond.2.1, hcond.2.2, rfl, rfl, rfl, rfl, rfl, rfl⟩
  case isFalse hcond => cases h

theorem mem_rules_elim {bs : List Basket} {r : Rule}
    (h : r ∈ generateAssociationRules bs) :
    ∃ idx key c, (key, c) ∈ productPairs bs ∧
      mkCandidate bs.length (singleProducts bs) idx key c = some r := by
  rw [generateAssociationRules] at h
  have h1 := List.take_subset _ _ h
  rw [mem_sortDesc] at h1
  rw [pushedRules] at h1
  rcases List.mem_filterMap.mp h1 with ⟨e, he, hce⟩
  exact ⟨e.1, e.2.1, e.2.2, snd_mem_of_mem_enum he, hce⟩

end RuleExtraction

end RetailIQ

namespace RetailIQ

/-- C4 (amended): on every input the returned rule list is sorted by lift
descending; the code applies no further tie-break (equal-lift rules stay
in candidate order, as the counterexample shows). -/
theorem C4_rules_sorted_by_lift (baskets : List Basket) :
    (generateAssociationRules baskets).Pairwise
      (fun r s : Rule => s.lift ≤ r.lift) :=
  List.Pairwise.sublist (List.take_sublist _ _)
    (sortDesc_pairwise (fun r : Rule => r.lift) _)

/-- C5 (amended): the code always evaluates the conviction division
(1 - support(consequent)) / (1 - confidence); when confidence = 1,
JavaScript division by zero yields the Infinity value (never NaN, because
the lift > 1 filter forces the consequent support below 1).  There is no
explicit confidence-1 branch. -/
theorem C5_conviction_infinity (baskets : List Basket) (r : Rule)
    (hr : r ∈ generateAssociationRules baskets) (hc : r.confidence = 1) :
    r.conviction = JsNum.posInf := by
  rcases mem_rules_elim hr with ⟨idx, key, c, _, hcand⟩
  obtain ⟨_, _, hlift, _, _, _, hconf, _, hconv⟩ := mkCandidate_some_elim hcand
  set A : ℚ :=
    (orOne (getCount (singleProducts baskets) (pairAntecedent key)) : ℚ)
    with hA
  set B : ℚ :=
    (orOne (getCount (singleProducts baskets) (pairConsequent key)) : ℚ)
    with hB
  have hconf1 : (c : ℚ) / A = 1 := by rw [← hconf, hc]
  have hBpos : 0 < B := by
    have h1 := one_le_orOne
      (getCount (singleProducts baskets) (pairConsequent key))
    have h2 : (1 : ℚ) ≤ B := by
      rw [hB]
      exact_mod_cast h1
    linarith
  rw [hconf1] at hlift
  have hfrac_pos : 0 < B / (baskets.length : ℚ) := by
    by_contra hnp
    push_neg at hnp
    have h0 : 1 / (B / (baskets.length : ℚ)) ≤ 0 := one_div_nonpos.mpr hnp
    linarith
  have hfrac_lt1 : B / (baskets.length : ℚ) < 1 := by
    have h1 : (B / (baskets.length : ℚ)) * (1 / (B / (baskets.length : ℚ))) = 1 :=
      mul_one_div_cancel (ne_of_gt hfrac_pos)
    nlinarith
  have hz : (1 : ℚ) - (c : ℚ) / A = 0 := by rw [hconf1]; ring
  rw [hconv, hz, jsDiv, if_pos rfl, if_pos (by linarith)]

/-- Unfolding equation for generateAssociationRules. -/
theorem generateAssociationRules_eq (baskets : List Basket) :
    generateAssociationRules baskets =
      (sortDesc (fun r : Rule => r.lift) (pushedRules baskets)).take 10 := rfl

/-- Unfolding equation for generateFrequentItemsets. -/
theorem generateFrequentItemsets_eq (baskets : List Basket) :
    generateFrequentItemsets baskets =
      ((sortDesc (fun e : String × ℕ => (e.2 : ℚ))
        (buildCounts (allProducts baskets))).take 10).map
        (fun e => { items := [e.1], frequency := e.2,
                    support := (e.2 : ℚ) / baskets.length }) := rfl

/-- C10 (confirmed): both generators keep at most 10 entries, and the
kept entries are the top ones: the returned rules together with the
dropped tail of the lift-sorted candidate list are a permutation of all
pushed candidates, every kept rule has lift at least that of every
dropped candidate, and likewise the kept item-count entries dominate the
dropped ones, with the output itemset frequencies exactly the kept
counts in descending order. -/
theorem C10_output_truncated (baskets : List Basket) :
    (generateAssociationRules baskets).length ≤ 10 ∧
    (generateFrequentItemsets baskets).length ≤ 10 ∧
    (generateAssociationRules baskets ++
      (sortDesc (fun r : Rule => r.lift) (pushedRules baskets)).drop 10).Perm
      (pushedRules baskets) ∧
    (∀ r ∈ generateAssociationRules baskets,
      ∀ s ∈ (sortDesc (fun r : Rule => r.lift) (pushedRules baskets)).drop 10,
        s.lift ≤ r.lift) ∧
    ((sortDesc (fun e : String × ℕ => (e.2 : ℚ))
        (buildCounts (allProducts baskets))).take 10 ++
      (sortDesc (fun e : String × ℕ => (e.2 : ℚ))
        (buildCounts (allProducts baskets))).drop 10).Perm
      (buildCounts (allProducts baskets)) ∧
    (∀ e ∈ (sortDesc (fun e : String × ℕ => (e.2 : ℚ))
        (buildCounts (allProducts baskets))).take 10,
      ∀ f ∈ (sortDesc (fun e : String × ℕ => (e.2 : ℚ))
        (buildCounts (allProducts baskets))).drop 10, f.2 ≤ e.2) ∧
    (generateFrequentItemsets baskets).map Itemset.frequency =
      ((sortDesc (fun e : String × ℕ => (e.2 : ℚ))
        (buildCounts (allProducts baskets))).take 10).map Prod.snd ∧
    (generateFrequentItemsets baskets).Pairwise
      (fun x y : Itemset => y.frequency ≤ x.frequency) := by
  refine ⟨?_, ?_, ?_, ?_, ?_, ?_, ?_, ?_⟩
  · rw [generateAssociationRules_eq, List.length_take]
    omega
  · rw [generateFrequentItemsets_eq, List.length_map, List.length_take]
    omega
  · rw [generateAssociationRules_eq, List.take_append_drop]
    exact sortDesc_perm (fun r : Rule => r.lift) (pushedRules baskets)
  · intro r hr s hs
    rw [generateAssociationRules_eq] at hr
    exact pairwise_take_drop
      (sortDesc_pairwise (fun r : Rule => r.lift) (pushedRules baskets)) 10
      r hr s hs
  · rw [List.take_append_drop]
    exact sortDesc_perm (fun e : String × ℕ => (e.2 : ℚ))
      (buildCounts (allProducts baskets))
  · intro e he f hf
    have h := pairwise_take_drop
      (sortDesc_pairwise (fun e : String × ℕ => (e.2 : ℚ))
        (buildCounts (allProducts baskets))) 10 e he f hf
    exact_mod_cast h
  · rw [generateFrequentItemsets_eq, List.map_map]
    rfl
  · rw [generateFrequentItemsets_eq, List.pairwise_map]
    have hp := List.Pairwise.sublist (List.take_sublist 10 _)
      (sortDesc_pairwise (fun e : String × ℕ => (e.2 : ℚ))
        (buildCounts (allProducts baskets)))
    exact hp.imp fun h => by exact_mod_cast h

end RetailIQ

namespace RetailIQ

/-- C3 (amended): when no basket repeats a product and every product name
round-trips through the joined pair key (cleanName), every returned rule
has 0 <= confidence <= 1 and confidence >= support, with equality only
when the antecedent item has support 1.  With a repeated product, or with
a name containing the separator, the bounds fail (see the
counterexample). -/
theorem C3_confidence_bounds (baskets : List Basket)
    (hnd : ∀ b ∈ baskets, b.products.Nodup)
    (hclean : ∀ b ∈ baskets, ∀ p ∈ b.products, cleanName p) (r : Rule)
    (hr : r ∈ generateAssociationRules baskets) :
    0 ≤ r.confidence ∧ r.confidence ≤ 1 ∧ r.support ≤ r.confidence ∧
      (r.confidence = r.support →
        ∀ a ∈ r.antecedent, itemSupport baskets a = 1) := by
  rcases mem_rules_elim hr with ⟨idx, key, c, hmem, hcand⟩
  obtain ⟨h05, h50, hlift, hant, hcons, hsupp, hconf, hliftEq, hconv⟩ :=
    mkCandidate_some_elim hcand
  obtain ⟨hc_eq, hk_mem⟩ := mem_buildCounts hmem
  have hk1 : pairAntecedent key ∈ allProducts baskets :=
    mem_allPairs_antecedent hclean hk_mem
  have hna_pos : 0 < occCount (allProducts baskets) (pairAntecedent key) :=
    occCount_pos_iff.mpr hk1
  have hsp : getCount (singleProducts baskets) (pairAntecedent key) =
      occCount (allProducts baskets) (pairAntecedent key) := by
    rw [singleProducts, getCount_buildCounts]
  have horOne : orOne (getCount (singleProducts baskets) (pairAntecedent key)) =
      occCount (allProducts baskets) (pairAntecedent key) := by
    rw [hsp, orOne_of_pos hna_pos]
  have hc_pos : 0 < c := by
    rw [hc_eq]
    exact occCount_pos_iff.mpr hk_mem
  have hcle : c ≤ occCount (allProducts baskets) (pairAntecedent key) := by
    rw [hc_eq]
    exact count_allPairs_le hnd hclean key
  have hnaN : occCount (allProducts baskets) (pairAntecedent key) ≤
      baskets.length :=
    count_allProducts_le_length hnd (pairAntecedent key)
  have hnaQ : (0 : ℚ) <
      (occCount (allProducts baskets) (pairAntecedent key) : ℚ) := by
    exact_mod_cast hna_pos
  have hNQ : (0 : ℚ) < (baskets.length : ℚ) := by
    have h0 : 0 < baskets.length := lt_of_lt_of_le hna_pos hnaN
    exact_mod_cast h0
  have hconf2 : r.confidence =
      (c : ℚ) / (occCount (allProducts baskets) (pairAntecedent key) : ℚ) := by
    rw [hconf, horOne]
  refine ⟨?_, ?_, ?_, ?_⟩
  · rw [hconf2]
    positivity
  · rw [hconf2, div_le_one hnaQ]
    exact_mod_cast hcle
  · rw [hconf2, hsupp]
    gcongr
  · intro heq a ha
    rw [hant] at ha
    obtain rfl := List.mem_singleton.mp ha
    rw [hconf2, hsupp] at heq
    have hcQ : (0 : ℚ) < (c : ℚ) := by exact_mod_cast hc_pos
    have hEq2 := (div_eq_div_iff (ne_of_gt hnaQ) (ne_of_gt hNQ)).mp heq
    have hlen_na : (baskets.length : ℚ) =
        (occCount (allProducts baskets) (pairAntecedent key) : ℚ) :=
      mul_left_cancel₀ (ne_of_gt hcQ) hEq2
    rw [itemSupport, itemOccurrences, ← hlen_na, div_self (ne_of_gt hNQ)]

end RetailIQ

namespace RetailIQ

section ForecastLemmas

theorem jsRound_le (x : ℝ) : (jsRound x : ℝ) ≤ x + 1/2 := Int.floor_le _

theorem lt_jsRound (x : ℝ) : x - 1/2 < (jsRound x : ℝ) := by
  have h := Int.sub_one_lt_floor (x + 1/2)
  rw [jsRound]
  linarith

/-- C6 (amended): the interval width upperBound - lowerBound always stays
within one unit of 0.3 * predicted; since predicted follows the seasonal
sine factor it is not monotone in the day index, and neither is the width
(see the counterexample). -/
theorem C6_width_tracks_predicted (L : ℝ) (i : ℕ) :
    |(intervalWidth L i : ℝ) - 0.3 * predictedAt L i| ≤ 1 := by
  have h1 := jsRound_le (predictedAt L i * 1.15)
  have h2 := lt_jsRound (predictedAt L i * 1.15)
  have h3 := jsRound_le (predictedAt L i * 0.85)
  have h4 := lt_jsRound (predictedAt L i * 0.85)
  rw [intervalWidth, upperBoundAt, lowerBoundAt]
  push_cast
  rw [abs_le]
  constructor <;> linarith

theorem sqrt_three_gt_one : (1 : ℝ) < Real.sqrt 3 := by
  rw [show (1 : ℝ) = Real.sqrt 1 by simp]
  exact Real.sqrt_lt_sqrt (by norm_num) (by norm_num)

theorem predictedAt_day5 :
    predictedAt 1000 5 = 1010 * (1 + Real.sqrt 3 / 20) := by
  rw [predictedAt]
  have h1 : ((5 : ℕ) : ℝ) * Real.pi / 15 = Real.pi / 3 := by
    push_cast
    ring
  rw [h1, Real.sin_pi_div_three]
  push_cast
  ring

theorem predictedAt_day20 :
    predictedAt 1000 20 = 1040 * (1 - Real.sqrt 3 / 20) := by
  rw [predictedAt]
  have h1 : ((20 : ℕ) : ℝ) * Real.pi / 15 = Real.pi / 3 + Real.pi := by
    push_cast
    ring
  rw [h1, Real.sin_add_pi, Real.sin_pi_div_three]
  push_cast
  ring

end ForecastLemmas

/-- C7 (code bug): the per-point forecast confidence is the hard-coded
schedule max(70, 95 - day), which is the constant 70 from day 25 onward:
days 26 and 27 receive the same confidence, so confidence does not
strictly decrease with the horizon, and it is not derived from residuals. -/
theorem C7_confidence_clamped :
    predConfidence 26 = 70 ∧ predConfidence 27 = 70 ∧
      (salesPredictions 0).length = 30 ∧
      ((salesPredictions 0).map PredictionPoint.confidence).take 4 =
        [94, 93, 92, 91] := by
  refine ⟨by norm_num [predConfidence], by norm_num [predConfidence], ?_, ?_⟩
  · rw [salesPredictions, List.length_map, List.length_range]
  · rw [salesPredictions]
    norm_num [List.range_succ, predConfidence]

end RetailIQ

namespace RetailIQ

section ConcreteEvaluations

theorem rules_scenarioBaskets : generateAssociationRules scenarioBaskets = [] := by
  have hp : productPairs scenarioBaskets =
      [("bread -> butter", 3), ("bread -> milk", 3),
       ("butter -> milk", 3)] := by decide
  have hs : singleProducts scenarioBaskets =
      [("bread", 4), ("butter", 4), ("milk", 4)] := by decide
  have hl : scenarioBaskets.length = 5 := by decide
  have s1 : jsSplitArrow "bread -> butter" = ["bread", "butter"] := by decide
  have s2 : jsSplitArrow "bread -> milk" = ["bread", "milk"] := by decide
  have s3 : jsSplitArrow "butter -> milk" = ["butter", "milk"] := by decide
  have g1 : orOne (getCount
      [("bread", 4), ("butter", 4), ("milk", 4)] "bread") = 4 := by decide
  have g2 : orOne (getCount
      [("bread", 4), ("butter", 4), ("milk", 4)] "butter") = 4 := by decide
  have g3 : orOne (getCount
      [("bread", 4), ("butter", 4), ("milk", 4)] "milk") = 4 := by decide
  rw [generateAssociationRules, pushedRules, hp, hs, hl]
  norm_num [mkCandidate, sortDesc, insDesc, jsDiv, List.enum,
    List.filterMap_cons, s1, s2, s3, g1, g2, g3]

theorem rules_degenerateBaskets :
    generateAssociationRules degenerateBaskets = [] := by
  have hp : productPairs degenerateBaskets = [("A -> B", 10)] := by decide
  have hs : singleProducts degenerateBaskets = [("A", 10), ("B", 10)] := by
    decide
  have hl : degenerateBaskets.length = 10 := by decide
  have s1 : jsSplitArrow "A -> B" = ["A", "B"] := by decide
  have g1 : orOne (getCount [("A", 10), ("B", 10)] "A") = 10 := by decide
  have g2 : orOne (getCount [("A", 10), ("B", 10)] "B") = 10 := by decide
  rw [generateAssociationRules, pushedRules, hp, hs, hl]
  norm_num [mkCandidate, sortDesc, insDesc, jsDiv, List.enum,
    List.filterMap_cons, s1, g1, g2]

theorem rules_tieBaskets :
    generateAssociationRules tieBaskets = [ruleTieAB, ruleTieCD] := by
  have hp : productPairs tieBaskets =
      [("A -> B", 1), ("C -> D", 1)] := by decide
  have hs : singleProducts tieBaskets =
      [("A", 2), ("B", 1), ("C", 1), ("D", 2)] := by decide
  have hl : tieBaskets.length = 4 := by decide
  have s1 : jsSplitArrow "A -> B" = ["A", "B"] := by decide
  have s2 : jsSplitArrow "C -> D" = ["C", "D"] := by decide
  have g1 : orOne (getCount
      [("A", 2), ("B", 1), ("C", 1), ("D", 2)] "A") = 2 := by decide
  have g2 : orOne (getCount
      [("A", 2), ("B", 1), ("C", 1), ("D", 2)] "B") = 1 := by decide
  have g3 : orOne (getCount
      [("A", 2), ("B", 1), ("C", 1), ("D", 2)] "C") = 1 := by decide
  have g4 : orOne (getCount
      [("A", 2), ("B", 1), ("C", 1), ("D", 2)] "D") = 2 := by decide
  rw [generateAssociationRules, pushedRules, hp, hs, hl]
  norm_num [mkCandidate, sortDesc, insDesc, jsDiv, List.enum,
    List.filterMap_cons, s1, s2, g1, g2, g3, g4, ruleTieAB, ruleTieCD]

theorem rules_dupBaskets : generateAssociationRules dupBaskets = [ruleDup] := by
  have hp : productPairs dupBaskets =
      [("A -> B", 2), ("B -> B", 1)] := by decide
  have hs : singleProducts dupBaskets =
      [("A", 1), ("B", 2), ("C", 1)] := by decide
  have hl : dupBaskets.length = 2 := by decide
  have s1 : jsSplitArrow "A -> B" = ["A", "B"] := by decide
  have s2 : jsSplitArrow "B -> B" = ["B", "B"] := by decide
  have g1 : orOne (getCount [("A", 1), ("B", 2), ("C", 1)] "A") = 1 := by decide
  have g2 : orOne (getCount [("A", 1), ("B", 2), ("C", 1)] "B") = 2 := by decide
  rw [generateAssociationRules, pushedRules, hp, hs, hl]
  norm_num [mkCandidate, sortDesc, insDesc, jsDiv, List.enum,
    List.filterMap_cons, s1, s2, g1, g2, ruleDup]

theorem rules_confOneBaskets :
    generateAssociationRules confOneBaskets = [ruleConfOne] := by
  have hp : productPairs confOneBaskets = [("A -> B", 2)] := by decide
  have hs : singleProducts confOneBaskets =
      [("A", 2), ("B", 2), ("C", 1)] := by decide
  have hl : confOneBaskets.length = 3 := by decide
  have s1 : jsSplitArrow "A -> B" = ["A", "B"] := by decide
  have g1 : orOne (getCount [("A", 2), ("B", 2), ("C", 1)] "A") = 2 := by decide
  have g2 : orOne (getCount [("A", 2), ("B", 2), ("C", 1)] "B") = 2 := by decide
  rw [generateAssociationRules, pushedRules, hp, hs, hl]
  norm_num [mkCandidate, sortDesc, insDesc, jsDiv, List.enum,
    List.filterMap_cons, s1, g1, g2, ruleConfOne]

theorem rules_sepBaskets : generateAssociationRules sepBaskets = [ruleSep] := by
  have hp : productPairs sepBaskets = [("P -> Q -> R", 2)] := by decide
  have hs : singleProducts sepBaskets = [("P -> Q", 2), ("R", 2)] := by decide
  have hl : sepBaskets.length = 2 := by decide
  have s1 : jsSplitArrow "P -> Q -> R" = ["P", "Q", "R"] := by decide
  have g1 : orOne (getCount [("P -> Q", 2), ("R", 2)] "P") = 1 := by decide
  have g2 : orOne (getCount [("P -> Q", 2), ("R", 2)] "Q") = 1 := by decide
  rw [generateAssociationRules, pushedRules, hp, hs, hl]
  norm_num [mkCandidate, sortDesc, insDesc, jsDiv, List.enum,
    List.filterMap_cons, s1, g1, g2, ruleSep]

end ConcreteEvaluations

end RetailIQ

namespace RetailIQ

/-- C1 (counterexample): on the five-basket scenario the analysis returns
no rules at all, so in particular no rule with support 0.6, confidence
0.667 and lift 0.833 is produced. -/
theorem C1_counterexample : generateAssociationRules scenarioBaskets = [] :=
  rules_scenarioBaskets

/-- C1 (amended): the generator has no min_support or min_confidence
parameters and only forms single-item to single-item candidates under the
hard-coded filter support >= 0.05, confidence >= 0.5, lift > 1; on the
scenario input each of the three candidate pairs has support 3/5,
confidence 3/4 and lift 15/16, so the lift > 1 filter rejects every
candidate and the returned rule list is empty. -/
theorem C1_scenario_stats :
    pairSupport scenarioBaskets "bread -> butter" = 3/5 ∧
    pairConfidence scenarioBaskets "bread -> butter" = 3/4 ∧
    pairLift scenarioBaskets "bread -> butter" = 15/16 ∧
    pairLift scenarioBaskets "bread -> milk" = 15/16 ∧
    pairLift scenarioBaskets "butter -> milk" = 15/16 ∧
    generateAssociationRules scenarioBaskets = [] := by
  have p1 : pairOccurrences scenarioBaskets "bread -> butter" = 3 := by decide
  have p2 : pairOccurrences scenarioBaskets "bread -> milk" = 3 := by decide
  have p3 : pairOccurrences scenarioBaskets "butter -> milk" = 3 := by decide
  have i1 : itemOccurrences scenarioBaskets "bread" = 4 := by decide
  have i2 : itemOccurrences scenarioBaskets "butter" = 4 := by decide
  have i3 : itemOccurrences scenarioBaskets "milk" = 4 := by decide
  have a1 : pairAntecedent "bread -> butter" = "bread" := by decide
  have c1 : pairConsequent "bread -> butter" = "butter" := by decide
  have a2 : pairAntecedent "bread -> milk" = "bread" := by decide
  have c2 : pairConsequent "bread -> milk" = "milk" := by decide
  have a3 : pairAntecedent "butter -> milk" = "butter" := by decide
  have c3 : pairConsequent "butter -> milk" = "milk" := by decide
  have hl : scenarioBaskets.length = 5 := by decide
  refine ⟨?_, ?_, ?_, ?_, ?_, rules_scenarioBaskets⟩ <;>
    norm_num [pairSupport, pairConfidence, pairLift, orOne,
      p1, p2, p3, i1, i2, i3, a1, c1, a2, c2, a3, c3, hl]

/-- C2 (counterexample): on ten copies of the basket containing A and B
the analysis returns no rules, so the promised rule A to B with support 1,
confidence 1 and lift 1 is not returned. -/
theorem C2_counterexample : generateAssociationRules degenerateBaskets = [] :=
  rules_degenerateBaskets

/-- C2 (amended): on the degenerate dataset the candidate rule A to B has
support 1, confidence 1 and lift exactly 1, and the hard-coded filter
demands lift strictly greater than 1, so the returned rule list is
empty. -/
theorem C2_degenerate_stats :
    pairSupport degenerateBaskets "A -> B" = 1 ∧
    pairConfidence degenerateBaskets "A -> B" = 1 ∧
    pairLift degenerateBaskets "A -> B" = 1 ∧
    generateAssociationRules degenerateBaskets = [] := by
  have p1 : pairOccurrences degenerateBaskets "A -> B" = 10 := by decide
  have i1 : itemOccurrences degenerateBaskets "A" = 10 := by decide
  have i2 : itemOccurrences degenerateBaskets "B" = 10 := by decide
  have a1 : pairAntecedent "A -> B" = "A" := by decide
  have c1 : pairConsequent "A -> B" = "B" := by decide
  have hl : degenerateBaskets.length = 10 := by decide
  refine ⟨?_, ?_, ?_, rules_degenerateBaskets⟩ <;>
    norm_num [pairSupport, pairConfidence, pairLift, orOne,
      p1, i1, i2, a1, c1, hl]

/-- C3 (counterexample): the confidence bound fails twice.  A basket that
repeats the product B yields a rule with confidence 2, and two
duplicate-free baskets whose product name contains the separator also
yield a rule with confidence 2 (the joined key re-splits to an absent
antecedent, so the || 1 fallback divides by 1). -/
theorem C3_counterexample :
    (generateAssociationRules dupBaskets).map (fun r => r.confidence) = [2] ∧
    (∀ b ∈ sepBaskets, b.products.Nodup) ∧
    (generateAssociationRules sepBaskets).map (fun r => r.confidence) = [2] := by
  refine ⟨?_, by decide, ?_⟩
  · rw [rules_dupBaskets]
    norm_num [ruleDup]
  · rw [rules_sepBaskets]
    norm_num [ruleSep]

/-- C3 (witness): the second tieBaskets rule satisfies the amended
confidence bounds. -/
theorem C3_witness :
    0 ≤ ruleTieCD.confidence ∧ ruleTieCD.confidence ≤ 1 ∧
      ruleTieCD.support ≤ ruleTieCD.confidence ∧
      (ruleTieCD.confidence = ruleTieCD.support →
        ∀ a ∈ ruleTieCD.antecedent, itemSupport tieBaskets a = 1) :=
  C3_confidence_bounds tieBaskets (by decide) (by decide) ruleTieCD
    (by rw [rules_tieBaskets]; simp)

/-- C4 (counterexample): tieBaskets produces two rules of equal lift 2
whose confidences appear in ascending order 1/2 then 1, so equal-lift ties
are not broken by confidence descending. -/
theorem C4_counterexample :
    (generateAssociationRules tieBaskets).map (fun r => (r.lift, r.confidence)) =
      [(2, 1/2), (2, 1)] := by
  rw [rules_tieBaskets]
  norm_num [ruleTieAB, ruleTieCD]

/-- C5 (counterexample): on confOneBaskets the single returned rule has
confidence 1 and its conviction is the value of the JavaScript division
(1 - 2/3) / (1 - 1), i.e. a division with zero denominator is performed
(yielding Infinity) instead of an explicit sentinel branch. -/
theorem C5_counterexample :
    (generateAssociationRules confOneBaskets).map
      (fun r => (r.confidence, r.conviction)) = [(1, jsDiv (1/3) 0)] := by
  rw [rules_confOneBaskets]
  norm_num [ruleConfOne, jsDiv]

/-- C5 (witness): the confOneBaskets rule, which has confidence 1, gets
conviction Infinity. -/
theorem C5_witness : ruleConfOne.conviction = JsNum.posInf :=
  C5_conviction_infinity confOneBaskets ruleConfOne
    (by rw [rules_confOneBaskets]; simp) rfl

/-- C6 (counterexample): with lastSales = 1000 the interval width at
horizon day 20 is strictly smaller than at day 5, so the width is not
non-decreasing in the day index. -/
theorem C6_counterexample : intervalWidth 1000 20 < intervalWidth 1000 5 := by
  have hs3 := sqrt_three_gt_one
  have hW5 : (0.3 : ℝ) * predictedAt 1000 5 - 1 < (intervalWidth 1000 5 : ℝ) := by
    have h2 := lt_jsRound (predictedAt 1000 5 * 1.15)
    have h3 := jsRound_le (predictedAt 1000 5 * 0.85)
    rw [intervalWidth, upperBoundAt, lowerBoundAt]
    push_cast
    linarith
  have hW20 : (intervalWidth 1000 20 : ℝ) < 0.3 * predictedAt 1000 20 + 1 := by
    have h1 := jsRound_le (predictedAt 1000 20 * 1.15)
    have h4 := lt_jsRound (predictedAt 1000 20 * 0.85)
    rw [intervalWidth, upperBoundAt, lowerBoundAt]
    push_cast
    linarith
  have hlt : (intervalWidth 1000 20 : ℝ) < (intervalWidth 1000 5 : ℝ) := by
    rw [predictedAt_day5] at hW5
    rw [predictedAt_day20] at hW20
    linarith
  exact_mod_cast hlt

/-- C8 (counterexample): on the empty transaction list the analysis
returns a normal success record with empty baskets, empty rule list and
empty itemset list; no InvalidInputError exists or is raised. -/
theorem C8_counterexample :
    processMarketBasketData [] =
      { baskets := [], associationRules := [], frequentItemsets := [] } := rfl

/-- C8 (amended): processMarketBasketData performs no input validation
and cannot fail; on an empty transaction list each component of the
result is empty. -/
theorem C8_empty_input_succeeds :
    (processMarketBasketData []).baskets = [] ∧
    (processMarketBasketData []).associationRules = [] ∧
    (processMarketBasketData []).frequentItemsets = [] :=
  ⟨rfl, rfl, rfl⟩

end RetailIQ
